import Mathlib

/-!
Verification of the pwndbg instruction-enhancement pipeline.

Shallow embedding of:
  - pwndbg/disasm/arch.py   (DisassemblyAssistant: telescope, enhance_operands,
                             enhance_conditional, enhance_next, resolve_target, ...)
  - pwndbg/disasm/x86.py    (x86 DisassemblyAssistant overrides and annotation handlers)
  - pwndbg/disasm/__init__.py (instruction fetch sizes, the `near` window assembler)

Machine words are `Nat`, masked with `2^(8*ptrsize) - 1` where the source applies
`& pwndbg.gdblib.arch.ptrmask`; raw operand arithmetic is done in `Int` (Python ints)
and masked on storage, mirroring `value &= ptrmask`.  Fallible reads of debuggee or
emulator memory are `Option`-valued, mirroring code that catches `gdb.MemoryError`
or probes with `peek`.  External collaborators that are not part of this repository
(colorization, string formatting of telescopes) are opaque function fields of the
state record: the claims under verification do not depend on their output.
-/

namespace Pwndbg

/-- Capstone generic instruction-group constants (`CS_GRP_*`, external library). -/
def CS_GRP_INVALID : Nat := 0
def CS_GRP_JUMP : Nat := 1
def CS_GRP_CALL : Nat := 2
def CS_GRP_RET : Nat := 3
def CS_GRP_INT : Nat := 4
def CS_GRP_IRET : Nat := 5
def CS_GRP_PRIVILEGE : Nat := 6

/-- Capstone x86 register id for RIP (symbolic stand-in for the library constant;
only its distinctness from other register ids matters). -/
def X86_REG_RIP : Nat := 41

/- Capstone x86 instruction ids used by the x86 assistant.  The concrete numbers are
symbolic stand-ins for the capstone enum values: the code only compares them for
equality, so all that matters is that they are pairwise distinct. -/
def X86_INS_MOV : Nat := 101
def X86_INS_MOVABS : Nat := 102
def X86_INS_MOVZX : Nat := 103
def X86_INS_MOVD : Nat := 104
def X86_INS_MOVQ : Nat := 105
def X86_INS_MOVSXD : Nat := 106
def X86_INS_MOVSX : Nat := 107
def X86_INS_MOVAPS : Nat := 108
def X86_INS_VMOVAPS : Nat := 109
def X86_INS_LEA : Nat := 110
def X86_INS_XCHG : Nat := 111
def X86_INS_POP : Nat := 112
def X86_INS_ADD : Nat := 113
def X86_INS_SUB : Nat := 114
def X86_INS_CMP : Nat := 115
def X86_INS_TEST : Nat := 116
def X86_INS_XOR : Nat := 117
def X86_INS_AND : Nat := 118
def X86_INS_INC : Nat := 119
def X86_INS_DEC : Nat := 120
def X86_INS_JMP : Nat := 121
def X86_INS_RET : Nat := 122
def X86_INS_CALL : Nat := 123
def X86_INS_CMOVA : Nat := 130
def X86_INS_CMOVAE : Nat := 131
def X86_INS_CMOVB : Nat := 132
def X86_INS_CMOVBE : Nat := 133
def X86_INS_CMOVE : Nat := 134
def X86_INS_CMOVG : Nat := 135
def X86_INS_CMOVGE : Nat := 136
def X86_INS_CMOVL : Nat := 137
def X86_INS_CMOVLE : Nat := 138
def X86_INS_CMOVNE : Nat := 139
def X86_INS_CMOVNO : Nat := 140
def X86_INS_CMOVNP : Nat := 141
def X86_INS_CMOVNS : Nat := 142
def X86_INS_CMOVO : Nat := 143
def X86_INS_CMOVP : Nat := 144
def X86_INS_CMOVS : Nat := 145
def X86_INS_JA : Nat := 146
def X86_INS_JAE : Nat := 147
def X86_INS_JB : Nat := 148
def X86_INS_JBE : Nat := 149
def X86_INS_JE : Nat := 150
def X86_INS_JG : Nat := 151
def X86_INS_JGE : Nat := 152
def X86_INS_JL : Nat := 153
def X86_INS_JLE : Nat := 154
def X86_INS_JNE : Nat := 155
def X86_INS_JNO : Nat := 156
def X86_INS_JNP : Nat := 157
def X86_INS_JNS : Nat := 158
def X86_INS_JO : Nat := 159
def X86_INS_JP : Nat := 160
def X86_INS_JS : Nat := 161

/-- Capstone operand kinds (`CS_OP_IMM` / `CS_OP_REG` / `CS_OP_MEM`; `other` stands
for any further kind, which every handler table maps to `lambda *a: None`). -/
inductive OpType where
  | imm
  | reg
  | mem
  | other
deriving DecidableEq

/-- One operand of a decoded instruction, together with the fields the enhancement
pipeline fills in (`EnhancedOperand` in pwndbg/disasm/instruction.py; the raw
capstone addressing-mode fields `op.mem.base` / `index` / `scale` / `disp` /
`segment` and `cs_op.size` are flattened into this record). -/
structure EOperand where
  otype : OpType
  reg : Nat := 0
  imm : Int := 0
  size : Nat := 8
  memSegment : Nat := 0
  memBase : Nat := 0
  memIndex : Nat := 0
  memScale : Int := 1
  memDisp : Int := 0
  before_value : Option Nat := none
  after_value : Option Nat := none
  symbol : Option String := none
  str : Option String := none
deriving DecidableEq

/-- A decoded instruction with the fields mutated by enhancement
(`PwndbgInstruction`).  `is_unconditional_jump` is a field of the (absent)
instruction module; it is carried as an opaque boolean.  `condition` is the
tri-state of the spec: `none` = Undetermined, `some true` / `some false`
(the source's `InstructionCondition` enum normalised by `enhance_conditional`).
The annotation string is stored in `annot`. -/
structure Instr where
  address : Nat
  size : Nat
  id : Nat := 0
  groups : List Nat := []
  ops : List EOperand := []
  is_unconditional_jump : Bool := false
  condition : Option Bool := none
  next : Nat := 0
  target : Option Nat := none
  target_string : Option String := none
  target_const : Bool := false
  annot : Option String := none
deriving DecidableEq

/-- A page record from `pwndbg.gdblib.vmmap.find` (only the writable bit is read). -/
structure Page where
  write : Bool
deriving DecidableEq

/-- Debuggee process state plus configuration, bundling the external collaborators
the enhancement code consults (`pwndbg.gdblib.regs/memory/symbol/vmmap`, the config
parameters, and the display-only formatting collaborators that are outside src/). -/
structure ProcState where
  pc : Nat
  sp : Nat := 0
  ptrsize : Nat := 8
  eflags : Option Nat := none
  eflagsBits : Nat := 0
  regNameOf : Nat → String := fun _ => ""
  regsByName : String → Option Int := fun _ => none
  symbolGet : Nat → Option String := fun _ => none
  mem : Nat → Option Nat := fun _ => none
  sizedRead : Nat → Nat → Option Nat := fun _ _ => none
  peek : Nat → Bool := fun _ => false
  vmmapPage : Nat → Option Page := fun _ => none
  emulateAnnotations : Bool := true
  emulateFutureAnnotations : Bool := true
  disasmAnnotations : Bool := true
  telescopeDepth : Int := 3
  telescopeStringLength : Nat := 50
  colorRegister : String → String := fun s => s
  colorRegisterChanged : String → String := fun s => s
  memColorGet : Nat → String := fun n => toString n
  getAddressOrSymbol : Nat → String := fun n => toString n
  getAddressAndSymbol : Nat → String := fun n => toString n
  msgError : String → String := fun s => s
  chainFormat : List Nat → Nat → Bool → Nat → String := fun _ _ _ _ => ""
  formatFlags : Option Int → Nat → String := fun _ _ => ""
  formatSmallIntPair : Nat → Nat → String × String := fun a b => (toString a, toString b)

/-- Pointer-width bit mask `pwndbg.gdblib.arch.ptrmask`. -/
def maskOf (st : ProcState) : Nat := 2 ^ (8 * st.ptrsize) - 1

/-- Python `value &= ptrmask` on an arbitrary (possibly negative) integer:
reduction modulo `2^(8*ptrsize)`. -/
def maskIntTo (w : Nat) (v : Int) : Nat := (v % ((2 : Int) ^ w)).toNat

/-- Modelled from the spec: `pwndbg.chain.get(address, limit)` (pwndbg/chain.py is
not part of src/).  Recursively dereferences a pointer chain: the result starts at
`address`, performs at most `limit` dereferences through `mem`, and stops safely at
the first unreadable address (spec 4.2 and 8: for a limit of N and a chain of N+2
valid pointers the result has exactly N+1 entries). -/
def chainGet (mem : Nat → Option Nat) : Nat → Nat → List Nat
  | address, 0 => [address]
  | address, limit + 1 =>
      address ::
        (match mem address with
          | some v => chainGet mem v limit
          | none => [])

/-- One snapshot of the emulator timeline: the registers/memory visible after a
given number of single steps, and whether the step that produced this snapshot
succeeded (`None not in emu.last_single_step_result`). -/
structure EmuSnap where
  pc : Nat
  regsByName : String → Option Int := fun _ => none
  mem : Nat → Option Nat := fun _ => none
  sizedRead : Nat → Nat → Option Nat := fun _ _ => none
  stepOk : Bool := true
  formatTelescope : List Nat → Nat → Nat → String := fun _ _ _ => ""

/-- The Unicorn emulator collaborator (pwndbg/emu/emulator.py, not part of src/),
modelled as a predetermined timeline of snapshots together with the number of
single steps taken so far.  `single_step` advances the index. -/
structure Emu where
  snaps : Nat → EmuSnap
  idx : Nat := 0

/-- Current snapshot of the emulator. -/
def Emu.cur (e : Emu) : EmuSnap := e.snaps e.idx

/-- The emulator's current program counter (`emu.pc`). -/
def Emu.pcNow (e : Emu) : Nat := e.cur.pc

/-- Whether the emulator's last single step succeeded
(`None not in emu.last_single_step_result`). -/
def Emu.lastStepOk (e : Emu) : Bool := e.cur.stepOk

/-- `emu.single_step(check_instruction_valid=False)`: advance one step, report
whether the step succeeded. -/
def Emu.single_step (e : Emu) : Emu × Bool :=
  let e' : Emu := { e with idx := e.idx + 1 }
  (e', e'.cur.stepOk)

/-- Modelled from the spec: `emu.telescope(address, limit, read_size=...)`
(pwndbg/emu/emulator.py is not part of src/).  The spec (4.2) delegates the whole
chase to the emulator; with a `read_size` the chase performs the one sized read
(mirroring the sized single-read behaviour of the live branch), otherwise it
dereferences through emulated memory up to `limit` hops.  Either way the result
starts with `address`. -/
def Emu.telescope (e : Emu) (address limit : Nat) (read_size : Option Nat) : List Nat :=
  match read_size with
  | some sz => address :: (e.cur.sizedRead sz address).toList
  | none => chainGet e.cur.mem address limit

/-- `DisassemblyAssistant.telescope` (pwndbg/disasm/arch.py lines 327-375).
Dereferences `address` recursively, taking emulation into account; on any failure
path it returns `([address], false)` instead of raising (`gdb.MemoryError` is
caught in the sized-read branch, modelled by the Option-valued `sizedRead`). -/
def telescope (st : ProcState) (address limit : Nat) (insn : Instr) (op : EOperand)
    (emu : Option Emu) (read_size : Option Nat) : List Nat × Bool :=
  let can_read_process_state := insn.address = st.pc
  match emu with
  | some e => (e.telescope address limit read_size, true)
  | none =>
      if can_read_process_state then
        match read_size with
        | some sz =>
            if sz ≠ st.ptrsize then
              -- result = [address]; try: result.append(poi(size_type, address))
              -- except gdb.MemoryError: pass; return (result, True)
              (address :: (st.sizedRead sz address).toList, true)
            else
              (chainGet st.mem address limit, true)
        | none => (chainGet st.mem address limit, true)
      else
        if ¬can_read_process_state ∨ op.otype = OpType.imm then
          match st.vmmapPage address with
          | some page =>
              if ¬page.write then (chainGet st.mem address limit, true)
              else ([address], false)
          | none => ([address], false)
        else ([address], false)

/-- `DisassemblyAssistant.read_memory` (arch.py lines 279-293): telescope once with
the given read size and return the dereferenced value if one was obtained. -/
def read_memory (st : ProcState) (address size : Nat) (insn : Instr) (op : EOperand)
    (emu : Option Emu) : Option Nat :=
  let r := telescope st address 1 insn op emu (some size)
  if r.2 then
    if r.1.length ≥ 2 then r.1[1]? else none
  else none

/-- `DisassemblyAssistant.read_register` (arch.py lines 256-275).  With an emulator,
read the emulated register; otherwise a live register read is allowed only when the
process program counter equals the instruction's address
(`can_reason_about_process_state`). -/
def read_register_g (st : ProcState) (insn : Instr) (rid : Nat) (emu : Option Emu) :
    Option Int :=
  let regname := st.regNameOf rid
  match emu with
  | some e => e.cur.regsByName regname
  | none =>
      if insn.address = st.pc then st.regsByName regname
      else none

/-- x86 `DisassemblyAssistant.read_register` override (x86.py lines 333-341): RIP is
always computable as `instruction.address + instruction.size`, everything else
delegates to the generic rule. -/
def read_register_x86 (st : ProcState) (insn : Instr) (rid : Nat) (emu : Option Emu) :
    Option Int :=
  if rid = X86_REG_RIP then some ((insn.address + insn.size : Nat) : Int)
  else read_register_g st insn rid emu

/-- x86 `DisassemblyAssistant.parse_memory` (x86.py lines 344-372): compute the
memory operand's address (no dereference) as base + disp + scale*index; segmented
addresses are unresolvable, and an unreadable base or index register makes the
whole address unresolvable. -/
def parse_memory_x86 (st : ProcState) (insn : Instr) (op : EOperand) (emu : Option Emu) :
    Option Int :=
  if op.memSegment ≠ 0 then none
  else
    let base? : Option Int :=
      if op.memBase ≠ 0 then read_register_x86 st insn op.memBase emu else some 0
    match base? with
    | none => none
    | some b =>
        let t1 : Int := b + (if op.memDisp ≠ 0 then op.memDisp else 0)
        if op.memIndex ≠ 0 then
          match read_register_x86 st insn op.memIndex emu with
          | none => none
          | some idx => some (t1 + op.memScale * idx)
        else some t1

/-- Generic `DisassemblyAssistant.resolve_used_value` (arch.py lines 300-311):
registers and immediates are used as-is, memory operands are dereferenced with the
operand's size. -/
def resolve_used_value_g (st : ProcState) (value : Option Nat) (insn : Instr)
    (op : EOperand) (emu : Option Emu) : Option Nat :=
  match value with
  | none => none
  | some v =>
      match op.otype with
      | OpType.reg => some v
      | OpType.imm => some v
      | OpType.mem => read_memory st v op.size insn op emu
      | OpType.other => none

/-- x86 `DisassemblyAssistant.resolve_used_value` override (x86.py lines 317-330):
memory operands are read with `cs_op.size`, the rest falls back to the generic rule. -/
def resolve_used_value_x86 (st : ProcState) (value : Option Nat) (insn : Instr)
    (op : EOperand) (emu : Option Emu) : Option Nat :=
  match value with
  | none => none
  | some v =>
      if op.otype = OpType.mem then read_memory st v op.size insn op emu
      else resolve_used_value_g st (some v) insn op emu

/-- The architecture-overridable extension points of `DisassemblyAssistant`
(the dynamically dispatched methods used by the base enhancement algorithm).
`resolveTarget` additionally reports whether the x86 return-address stack read was
performed (second component), which is `false` for every non-RET path. -/
structure Assistant where
  readReg : ProcState → Instr → Nat → Option Emu → Option Int
  parseMem : ProcState → Instr → EOperand → Option Emu → Option Int
  resolveUsed : ProcState → Option Nat → Instr → EOperand → Option Emu → Option Nat
  resolveTarget : ProcState → Instr → Option Emu → Bool → Option Nat × Bool
  conditionHook : ProcState → Instr → Option Emu → Option Bool
  setAnnot : ProcState → Instr → Option Emu → Option String

/-- The `op_handlers` dispatch (arch.py lines 86-93): immediate, register, or
memory-address value of one operand; any other kind resolves to `None`. -/
def op_handler (A : Assistant) (st : ProcState) (insn : Instr) (op : EOperand)
    (emu : Option Emu) : Option Int :=
  match op.otype with
  | OpType.imm => some op.imm
  | OpType.reg => A.readReg st insn op.reg emu
  | OpType.mem => A.parseMem st insn op emu
  | OpType.other => none

/-- Hexadecimal rendering of a value, Python `"%#x" % value`. -/
def hexStr (n : Nat) : String := "0x" ++ String.mk (Nat.toDigits 16 n)

/-- Python f-string rendering of an `Option String` (None prints as "None"). -/
def strOf : Option String → String
  | some s => s
  | none => "None"

/-- `DisassemblyAssistant.immediate_string` (arch.py lines 519-525): decimal for
small magnitudes, hex otherwise.  (`before_value` of an immediate operand is always
set by the time this runs; the `getD` default is unreachable.) -/
def immediate_string (op : EOperand) : String :=
  let value := op.before_value.getD 0
  if value < 0x10 then toString value else hexStr value

/-- `DisassemblyAssistant.register_string` (arch.py lines 528-540): colorized
register name, de-emphasised when emulation proved the value unchanged. -/
def register_string (st : ProcState) (insn : Instr) (op : EOperand) : String :=
  let name := st.colorRegister ((st.regNameOf op.reg).toUpper)
  if op.before_value.isSome ∧ op.after_value.isSome ∧ op.before_value = op.after_value
  then name
  else st.colorRegisterChanged name

/-- `DisassemblyAssistant.memory_string` (arch.py lines 543-547). -/
def memory_string (st : ProcState) (op : EOperand) : Option String :=
  match op.before_value with
  | some v => some ("[" ++ st.getAddressOrSymbol v ++ "]")
  | none => none

/-- The `op_names` dispatch (arch.py lines 97-101). -/
def op_name (st : ProcState) (insn : Instr) (op : EOperand) : Option String :=
  match op.otype with
  | OpType.imm => some (immediate_string op)
  | OpType.reg => some (register_string st insn op)
  | OpType.mem => memory_string st op
  | OpType.other => none

/-- Phase 1 of `enhance_operands` for one operand (arch.py lines 201-206): resolve
`before_value` through the operand-kind handler, mask it to the pointer width, and
resolve its symbol. -/
def enhance_op_before (A : Assistant) (st : ProcState) (insn : Instr) (emu : Option Emu)
    (op : EOperand) : EOperand :=
  match (op_handler A st insn op emu).map (maskIntTo (8 * st.ptrsize)) with
  | some v => { op with before_value := some v, symbol := st.symbolGet v }
  | none => { op with before_value := none }

/-- Phase 2 of `enhance_operands` for one operand (arch.py lines 211-217): after a
successful emulator step, recompute the operand value as `after_value`, masked. -/
def enhance_op_after (A : Assistant) (st : ProcState) (insn : Instr) (emu : Option Emu)
    (op : EOperand) : EOperand :=
  { op with after_value := (op_handler A st insn op emu).map (maskIntTo (8 * st.ptrsize)) }

/-- Phase 3 of `enhance_operands` for one operand (arch.py lines 222-223). -/
def enhance_op_str (st : ProcState) (insn : Instr) (op : EOperand) : EOperand :=
  { op with str := op_name st insn op }

/-- `DisassemblyAssistant.enhance_operands` (arch.py lines 172-225).  Returns the
instruction with resolved operands together with the emulator that survives:
the stepped emulator if its single step succeeded, `none` otherwise (the source
returns the boolean `emu is not None` and keeps stepping the same object). -/
def enhance_operands (A : Assistant) (st : ProcState) (insn : Instr)
    (emu : Option Emu) : Instr × Option Emu :=
  let ops1 := insn.ops.map (enhance_op_before A st insn emu)
  let insn1 := { insn with ops := ops1 }
  let step2 : Instr × Option Emu :=
    match emu with
    | some e =>
        let r := e.single_step
        if r.2 then
          ({ insn1 with ops := ops1.map (enhance_op_after A st insn1 (some r.1)) },
            some r.1)
        else (insn1, none)
    | none => (insn1, none)
  let insn2 := step2.1
  ({ insn2 with ops := insn2.ops.map (enhance_op_str st insn2) }, step2.2)

/-- `DisassemblyAssistant.enhance_conditional` (arch.py lines 404-424): evaluate the
architecture condition hook and normalise it into the tri-state `condition` field
(`none` = executes unconditionally / undetermined, `some b` otherwise). -/
def enhance_conditional (A : Assistant) (st : ProcState) (insn : Instr)
    (emu : Option Emu) : Instr :=
  { insn with condition := A.conditionHook st insn emu }

/-- Generic `DisassemblyAssistant.resolve_target` (arch.py lines 481-510): the value
of the instruction pointer assuming the instruction executes and branches; calls are
resolved only when `call` is set, non-jumps resolve to nothing, and only
single-operand branches are handled.  `resolveUsed` is the dynamically dispatched
`self.resolve_used_value`. -/
def resolve_target_g
    (resolveUsed : ProcState → Option Nat → Instr → EOperand → Option Emu → Option Nat)
    (st : ProcState) (insn : Instr) (emu : Option Emu) (call : Bool) : Option Nat :=
  if CS_GRP_CALL ∈ insn.groups ∧ ¬call then none
  else if CS_GRP_CALL ∉ insn.groups ∧ CS_GRP_JUMP ∉ insn.groups then none
  else
    match insn.ops with
    | [op] =>
        match resolveUsed st op.before_value insn op emu with
        | some a => some (a &&& maskOf st)
        | none => none
    | _ => none

/-- x86 `DisassemblyAssistant.resolve_target` override (x86.py lines 375-392):
special-cases `ret` by reading the return address from the stack, but only when the
process is paused exactly at this instruction; otherwise it falls back to the
generic resolver.  The second component records whether the stack-read branch ran
(the `peek`/`poi` of `sp + ptrsize*pop`). -/
def resolve_target_x86 (st : ProcState) (insn : Instr) (emu : Option Emu)
    (call : Bool) : Option Nat × Bool :=
  if insn.id ≠ X86_INS_RET ∨ insn.ops.length > 1 then
    (resolve_target_g resolve_used_value_x86 st insn emu call, false)
  else if insn.address ≠ st.pc then
    (resolve_target_g resolve_used_value_x86 st insn emu call, false)
  else
    let pop : Nat :=
      match insn.ops with
      | op :: _ => op.before_value.getD 0
      | [] => 0
    let address := st.sp + st.ptrsize * pop
    if st.peek address then (st.mem address, true)
    else (none, true)

/-- x86 `DisassemblyAssistant.condition` (x86.py lines 395-453): evaluate the
Jcc/CMOVcc condition from the live EFLAGS, but only at the process program counter;
JMP/RET/CALL and unknown mnemonics are undetermined. -/
def condition_x86 (st : ProcState) (insn : Instr) (emu : Option Emu) : Option Bool :=
  if insn.id = X86_INS_JMP ∨ insn.id = X86_INS_RET ∨ insn.id = X86_INS_CALL then none
  else if insn.address ≠ st.pc then none
  else
    match st.eflags with
    | none => none
    | some efl =>
        -- The flag variables are the masked integers, exactly as in the source:
        -- truthiness is "nonzero", and `sf == of` compares the masked values
        -- (0x80 vs 0x800), so it holds only when both flags are clear.
        let cf := efl &&& (1 <<< 0)
        let pf := efl &&& (1 <<< 2)
        let zf := efl &&& (1 <<< 6)
        let sf := efl &&& (1 <<< 7)
        let of := efl &&& (1 <<< 11)
        let tbl : List (Nat × Bool) :=
          [(X86_INS_CMOVA, ¬(cf ≠ 0 ∨ zf ≠ 0)), (X86_INS_CMOVAE, cf = 0),
           (X86_INS_CMOVB, cf ≠ 0),
           (X86_INS_CMOVBE, cf ≠ 0 ∨ zf ≠ 0), (X86_INS_CMOVE, zf ≠ 0),
           (X86_INS_CMOVG, zf = 0 ∧ (sf = of)), (X86_INS_CMOVGE, sf = of),
           (X86_INS_CMOVL, sf ≠ of), (X86_INS_CMOVLE, zf ≠ 0 ∨ (sf ≠ of)),
           (X86_INS_CMOVNE, zf = 0), (X86_INS_CMOVNO, of = 0), (X86_INS_CMOVNP, pf = 0),
           (X86_INS_CMOVNS, sf = 0), (X86_INS_CMOVO, of ≠ 0), (X86_INS_CMOVP, pf ≠ 0),
           (X86_INS_CMOVS, sf ≠ 0),
           (X86_INS_JA, ¬(cf ≠ 0 ∨ zf ≠ 0)), (X86_INS_JAE, cf = 0), (X86_INS_JB, cf ≠ 0),
           (X86_INS_JBE, cf ≠ 0 ∨ zf ≠ 0), (X86_INS_JE, zf ≠ 0),
           (X86_INS_JG, zf = 0 ∧ (sf = of)), (X86_INS_JGE, sf = of),
           (X86_INS_JL, sf ≠ of), (X86_INS_JLE, zf ≠ 0 ∨ (sf ≠ of)),
           (X86_INS_JNE, zf = 0), (X86_INS_JNO, of = 0), (X86_INS_JNP, pf = 0),
           (X86_INS_JNS, sf = 0), (X86_INS_JO, of ≠ 0), (X86_INS_JP, pf ≠ 0),
           (X86_INS_JS, sf ≠ 0)]
        match tbl.lookup insn.id with
        | none => none
        | some b => some b

/-- `DisassemblyAssistant.enhance_next` (arch.py lines 430-478).  Sets `next` (the
address after a `nexti`), `target` (the branch target, falling back to `next`), and
the `target_const` flag. -/
def enhance_next (A : Assistant) (st : ProcState) (insn : Instr) (emu : Option Emu) :
    Instr :=
  let next_addr : Option Nat :=
    match emu with
    | some e => if CS_GRP_CALL ∉ insn.groups then some e.pcNow else none
    | none =>
        if insn.condition = some true ∨ insn.is_unconditional_jump then
          (A.resolveTarget st insn none false).1
        else none
  let next_addr := next_addr.getD (insn.address + insn.size)
  let target0 := (A.resolveTarget st insn emu true).1
  let nextv := next_addr &&& maskOf st
  let insn1 := { insn with next := nextv }
  let insn2 :=
    match target0 with
    | none => { insn1 with target := some nextv }
    | some t =>
        { insn1 with target := some t, target_string := some (st.getAddressOrSymbol t) }
  match insn2.ops with
  | op0 :: _ =>
      if (op0.before_value.getD 0) ≠ 0 ∧ op0.otype = OpType.imm then
        { insn2 with target_const := true }
      else insn2
  | [] => insn2

/-- `DisassemblyAssistant.telescope_format_list` (arch.py lines 380-400): dispatch
to the emulator's formatter or to `pwndbg.chain.format` (both outside src/, opaque
string collaborators of the state). -/
def telescope_format_list (st : ProcState) (addresses : List Nat) (limit : Nat)
    (emu : Option Emu) (enhance_can_dereference : Bool) : String :=
  match emu with
  | some e => e.cur.formatTelescope addresses limit st.telescopeStringLength
  | none => st.chainFormat addresses limit enhance_can_dereference st.telescopeStringLength

/-- `max(0, int(config.disasm_telescope_depth))` (x86.py line 80). -/
def teleDepth (st : ProcState) : Nat := (max 0 st.telescopeDepth).toNat

/-- x86 `handle_mov` (x86.py lines 75-137): annotate a mov with the telescoped
source value, special-casing unwritable destination memory and undereferenceable
memory sources. -/
def handle_mov (st : ProcState) (insn : Instr) (emu : Option Emu) : Option String :=
  match insn.ops with
  | [left, right] =>
      match right.before_value with
      | none => none
      | some rbv =>
          let depth := teleDepth st
          let r := telescope st rbv (depth + 1) insn right emu (some right.size)
          let tele := r.1
          let did := r.2
          if tele = [] then none
          else if left.otype = OpType.mem ∧ left.before_value.isSome then
            let lv := left.before_value.getD 0
            if ¬st.peek lv then
              some (st.msgError ("<Cannot dereference [" ++ st.memColorGet lv ++ "]>"))
            else
              some (strOf left.str ++ " => " ++ telescope_format_list st tele depth emu did)
          else if left.otype = OpType.reg ∧
              (right.otype = OpType.reg ∨ right.otype = OpType.imm) then
            some (strOf left.str ++ " => " ++ telescope_format_list st tele depth emu did)
          else if left.otype = OpType.reg ∧ right.otype = OpType.mem then
            if tele.length = 1 ∧ did then
              some (strOf left.str ++ ", " ++ strOf right.str ++ " => " ++
                st.msgError ("<Cannot dereference [" ++ st.memColorGet rbv ++ "]>>"))
            else if tele.length = 1 then
              some (strOf left.str ++ ", " ++ strOf right.str)
            else
              some (strOf left.str ++ ", " ++ strOf right.str ++ " => " ++
                telescope_format_list st (tele.drop 1) depth emu did)
          else none
  | _ => none

/-- x86 `handle_vmovaps` (x86.py lines 139-158): warn when the memory operand of an
aligned SIMD move is not aligned to the operand width. -/
def handle_vmovaps (st : ProcState) (insn : Instr) (emu : Option Emu) : Option String :=
  match insn.ops with
  | [left, right] =>
      let operand? :=
        if left.otype = OpType.mem then some left
        else if right.otype = OpType.mem then some right
        else none
      match operand? with
      | some op =>
          match op.before_value with
          | some v =>
              let alignment_mask := op.size - 1
              if v &&& alignment_mask ≠ 0 then
                some (st.msgError ("<[" ++ st.memColorGet v ++ "] not aligned to " ++
                  toString op.size ++ " bytes>"))
              else none
          | none => none
      | none => none
  | _ => none

/-- x86 `handle_lea` (x86.py lines 160-170). -/
def handle_lea (st : ProcState) (insn : Instr) (emu : Option Emu) : Option String :=
  match insn.ops with
  | [left, right] =>
      let depth := teleDepth st
      match right.before_value with
      | some rv =>
          let r := telescope st rv depth insn right emu none
          some (strOf left.str ++ " => " ++ telescope_format_list st r.1 depth emu r.2)
      | none => none
  | _ => none

/-- x86 `handle_xchg` (x86.py lines 172-182): report both post-swap values from the
pre-swap resolved values. -/
def handle_xchg (st : ProcState) (insn : Instr) (emu : Option Emu) : Option String :=
  match insn.ops with
  | [left, right] =>
      let left_before := resolve_used_value_x86 st left.before_value insn left emu
      let right_before := resolve_used_value_x86 st right.before_value insn right emu
      match left_before, right_before with
      | some lb, some rb =>
          some (strOf left.str ++ " => " ++ st.getAddressOrSymbol rb ++ ", " ++
            strOf right.str ++ " => " ++ st.getAddressOrSymbol lb)
      | _, _ => none
  | _ => none

/-- x86 `handle_pop` (x86.py lines 184-205): show the popped value, via emulation or
by reading the live stack top only when paused at this instruction. -/
def handle_pop (st : ProcState) (insn : Instr) (emu : Option Emu) : Option String :=
  let pc_is_at_instruction := insn.address = st.pc
  if insn.ops.length ≠ 1 then none
  else
    match insn.ops with
    | [reg_operand] =>
        if reg_operand.otype = OpType.reg then
          if emu.isSome ∧ reg_operand.after_value.isSome then
            some (strOf reg_operand.str ++ " => " ++
              st.getAddressAndSymbol (reg_operand.after_value.getD 0))
          else if pc_is_at_instruction then
            match st.mem st.sp with
            | some v => some (strOf reg_operand.str ++ " => " ++ st.getAddressAndSymbol v)
            | none => none
          else none
        else none
    | _ => none

/-- x86 `handle_add_sub_handler` (x86.py lines 207-236). -/
def handle_add_sub (st : ProcState) (insn : Instr) (emu : Option Emu)
    (char_to_separate_operands : String) : Option String :=
  match insn.ops with
  | [left, right] =>
      let left_before := resolve_used_value_x86 st left.before_value insn left emu
      let right_before := resolve_used_value_x86 st right.before_value insn right emu
      let plus_string :=
        match left_before, right_before with
        | some l, some r =>
            let p := st.formatSmallIntPair l r
            p.1 ++ " " ++ char_to_separate_operands ++ " " ++ p.2
        | _, _ => ""
      match resolve_used_value_x86 st left.after_value insn left emu with
      | some v =>
          some (strOf left.str ++ " => " ++ st.getAddressAndSymbol v ++
            " (" ++ plus_string ++ ")")
      | none =>
          if plus_string ≠ "" then some (strOf left.str ++ " => " ++ plus_string)
          else none
  | _ => none

/-- x86 `handle_cmp_test_handler` (x86.py lines 247-270). -/
def handle_cmp_test (st : ProcState) (insn : Instr) (emu : Option Emu)
    (char_to_separate_operands : String) : Option String :=
  match insn.ops with
  | [left, right] =>
      let left_actual := resolve_used_value_x86 st left.before_value insn left emu
      let right_actual := resolve_used_value_x86 st right.before_value insn right emu
      match left_actual, right_actual with
      | some l, some r =>
          let p := st.formatSmallIntPair l r
          let base := p.1 ++ " " ++ char_to_separate_operands ++ " " ++ p.2
          match emu with
          | some e =>
              some (base ++ "     " ++ "EFLAGS => " ++
                st.formatFlags (e.cur.regsByName "eflags") st.eflagsBits)
          | none => some base
      | _, _ => none
  | _ => none

/-- x86 `handle_xor` (x86.py lines 278-287): `xor reg, reg` of the same register is
annotated as an unconditional zero; any other shape is annotated only when the
destination's post-execution value resolves. -/
def handle_xor (st : ProcState) (insn : Instr) (emu : Option Emu) : Option String :=
  match insn.ops with
  | [left, right] =>
      if left.otype = OpType.reg ∧ right.otype = OpType.reg ∧ left.reg = right.reg then
        some (strOf left.str ++ " => 0")
      else
        match resolve_used_value_x86 st left.after_value insn left emu with
        | some v => some (strOf left.str ++ " => " ++ toString v)
        | none => none
  | _ => none

/-- x86 `handle_and` (x86.py lines 289-295). -/
def handle_and (st : ProcState) (insn : Instr) (emu : Option Emu) : Option String :=
  match insn.ops with
  | [left, right] =>
      match resolve_used_value_x86 st left.after_value insn left emu with
      | some v => some (strOf left.str ++ " => " ++ st.memColorGet v)
      | none => none
  | _ => none

/-- x86 `handle_inc` (also `handle_dec`, x86.py lines 297-309). -/
def handle_inc (st : ProcState) (insn : Instr) (emu : Option Emu) : Option String :=
  match insn.ops with
  | operand :: _ =>
      match resolve_used_value_x86 st operand.after_value insn operand emu with
      | some v => some (strOf operand.str ++ " => " ++ st.getAddressAndSymbol v)
      | none => none
  | [] => none

/-- The x86 `annotation_handlers` table dispatch (x86.py lines 40-73 and 312-314):
`set_annotation_string` keyed on the instruction id; unmatched ids produce nothing. -/
def set_annot_x86 (st : ProcState) (insn : Instr) (emu : Option Emu) : Option String :=
  if insn.id = X86_INS_MOV ∨ insn.id = X86_INS_MOVABS ∨ insn.id = X86_INS_MOVZX ∨
      insn.id = X86_INS_MOVD ∨ insn.id = X86_INS_MOVQ ∨ insn.id = X86_INS_MOVSXD ∨
      insn.id = X86_INS_MOVSX then handle_mov st insn emu
  else if insn.id = X86_INS_MOVAPS ∨ insn.id = X86_INS_VMOVAPS then
    handle_vmovaps st insn emu
  else if insn.id = X86_INS_LEA then handle_lea st insn emu
  else if insn.id = X86_INS_XCHG then handle_xchg st insn emu
  else if insn.id = X86_INS_POP then handle_pop st insn emu
  else if insn.id = X86_INS_ADD then handle_add_sub st insn emu "+"
  else if insn.id = X86_INS_SUB then handle_add_sub st insn emu "-"
  else if insn.id = X86_INS_CMP then handle_cmp_test st insn emu "-"
  else if insn.id = X86_INS_TEST then handle_cmp_test st insn emu "&"
  else if insn.id = X86_INS_XOR then handle_xor st insn emu
  else if insn.id = X86_INS_AND then handle_and st insn emu
  else if insn.id = X86_INS_INC ∨ insn.id = X86_INS_DEC then handle_inc st insn emu
  else none

/-- The default (architecture-unknown) assistant, `generic_assistant` in arch.py:
memory operands and annotations resolve to nothing, conditions are always `False`
(arch.py line 428). -/
def genericAssistant : Assistant where
  readReg := read_register_g
  parseMem := fun _ _ _ _ => none
  resolveUsed := resolve_used_value_g
  resolveTarget := fun st insn emu call =>
    (resolve_target_g resolve_used_value_g st insn emu call, false)
  conditionHook := fun _ _ _ => some false
  setAnnot := fun _ _ _ => none

/-- The x86 / x86-64 assistant (x86.py), overriding register reads (RIP), memory
operand parsing, used-value resolution, `ret` target resolution, the condition
table, and the annotation table. -/
def x86Assistant : Assistant where
  readReg := read_register_x86
  parseMem := parse_memory_x86
  resolveUsed := resolve_used_value_x86
  resolveTarget := resolve_target_x86
  conditionHook := condition_x86
  setAnnot := set_annot_x86

/-- `DisassemblyAssistant.enhance` (arch.py lines 108-162): gate the emulator by
configuration and program-counter agreement (discarded emulators are still
single-stepped in the source, which does not affect the returned instruction),
then resolve operands, condition, next/target, and the annotation string. -/
def enhance (A : Assistant) (st : ProcState) (insn : Instr) (emu0 : Option Emu) :
    Instr :=
  let emu1 : Option Emu :=
    match emu0 with
    | some e =>
        if ¬st.emulateAnnotations then none
        else if st.pc ≠ insn.address ∧ ¬st.emulateFutureAnnotations then none
        else if e.pcNow ≠ insn.address then none
        else some e
    | none => none
  let r := enhance_operands A st insn emu1
  let insn2 := enhance_conditional A st r.1 r.2
  let insn3 := enhance_next A st insn2 r.2
  if st.disasmAnnotations then { insn3 with annot := A.setAnnot st insn3 r.2 }
  else insn3

/-- `VariableInstructionSizeMax` (pwndbg/disasm/__init__.py lines 63-70): byte-buffer
lengths for variable-instruction-width architectures. -/
def VariableInstructionSizeMax : List (String × Nat) :=
  [("i386", 16), ("x86-64", 16), ("i8086", 16), ("mips", 8), ("rv32", 22), ("rv64", 22)]

/-- The byte count fetched from debuggee memory before disassembly,
`VariableInstructionSizeMax.get(pwndbg.gdblib.arch.current, 4)` in
`get_one_instruction` (pwndbg/disasm/__init__.py line 168). -/
def disasm_fetch_length (arch : String) : Nat :=
  (VariableInstructionSizeMax.lookup arch).getD 4

/-- `DO_NOT_EMULATE` (pwndbg/disasm/__init__.py lines 238-247): instruction groups
that the window assembler refuses to emulate through. -/
def DO_NOT_EMULATE : List Nat := [CS_GRP_CALL, CS_GRP_INT, CS_GRP_INVALID, CS_GRP_IRET]

/-- `set(insn.groups) & DO_NOT_EMULATE` is non-empty. -/
def hits_do_not_emulate (insn : Instr) : Bool :=
  insn.groups.any (fun g => g ∈ DO_NOT_EMULATE)

/-- The instruction-fetching collaborator of the window assembler: `fetch` stands
for `one(target, emu, put_cache=True)` (enhancement plus caching), abstracted
because `near` only branches on whether it produced an instruction. -/
structure WalkEnv where
  fetch : Nat → Option Emu → Option Instr

/-- The loop state of `near`'s forward walk (pwndbg/disasm/__init__.py lines
342-373).  `trace` instruments the walk: one entry per `one(...)` call, recording
whether an emulator was passed to it. -/
structure NearState where
  emulate : Bool
  emu : Option Emu
  cur : Option Instr
  insns : List Instr
  trace : List Bool

/-- One iteration of `near`'s forward-walk `while` body (__init__.py lines 345-373):
disable emulation on `DO_NOT_EMULATE` groups, use the emulator's program counter as
the next target while it is healthy, then fetch and enhance the next instruction
(which single-steps the surviving emulator once). -/
def forward_step (env : WalkEnv) (s : NearState) : NearState :=
  match s.cur with
  | none => s
  | some insn =>
      let target := insn.next
      let p1 : Bool × Option Emu :=
        if s.emulate ∧ hits_do_not_emulate insn then (false, none)
        else (s.emulate, s.emu)
      let p2 : Nat × Option Emu :=
        match p1.2 with
        | some e => if e.lastStepOk then (e.pcNow, some e) else (target, none)
        | none => (target, none)
      let fetched := env.fetch p2.1 p2.2
      { emulate := p1.1
        emu := p2.2.map (fun e => e.single_step.1)
        cur := fetched
        insns :=
          match fetched with
          | some i => s.insns ++ [i]
          | none => s.insns
        trace := s.trace ++ [p2.2.isSome] }

/-- The forward-walk loop `while insn and len(insns) < total_instructions` with an
explicit fuel bound (the loop itself terminates because `insns` grows or `insn`
becomes `None`). -/
def forward_walk (env : WalkEnv) (total : Nat) : Nat → NearState → NearState
  | 0, s => s
  | fuel + 1, s =>
      if s.cur.isSome ∧ s.insns.length < total then
        forward_walk env total fuel (forward_step env s)
      else s

/-- The state of `near` when its forward walk begins (__init__.py lines 295-343):
the emulator exists only when the request is at the program counter, emulation was
requested, the architecture supports it, and the resource check passed; the first
`one(address, emu)` call has single-stepped it.  `prev` stands for the instructions
recovered from the backward cache (enhanced without emulation). -/
def near_initial (env : WalkEnv) (st : ProcState) (address : Nat)
    (emulate emuSupported canEmu : Bool) (e0 : Emu) (prev : List Instr) : NearState :=
  let emulate1 := emulate ∧ emuSupported
  let emu0 : Option Emu :=
    if address = st.pc ∧ emulate1 ∧ canEmu then some e0 else none
  let current := env.fetch address emu0
  { emulate := emulate1
    emu := emu0.map (fun e => e.single_step.1)
    cur := current
    insns :=
      match current with
      | some c => prev ++ [c]
      | none => prev
    trace := [emu0.isSome] }

/-- The trailing-repeat deletion loop of `near` (__init__.py lines 375-383), stated
on the reversed list: `while len(insns) > 2 and insns[-3].address == insns[-2].address
== insns[-1].address: del insns[-1]` deletes the last element exactly while the last
three addresses agree, i.e. it drops the head of the reversed list. -/
def drop_repeated_head : List Instr → List Instr
  | a :: b :: c :: rest =>
      if a.address = b.address ∧ b.address = c.address then
        drop_repeated_head (b :: c :: rest)
      else a :: b :: c :: rest
  | l => l

/-- The trailing-repeat post-processing of the assembled window (__init__.py lines
375-383). -/
def collapse_trailing_repeats (insns : List Instr) : List Instr :=
  (drop_repeated_head insns.reverse).reverse

/-- The loop guard of the trailing-repeat deletion, on the reversed list: the first
three entries exist and share one address. -/
def headThreeSame (insns : List Instr) : Bool :=
  match insns with
  | a :: b :: c :: _ => a.address = b.address ∧ b.address = c.address
  | _ => false

/-- Whether the last three instructions of the window share one address
(the loop guard `len(insns) > 2 and insns[-3].address == insns[-2].address ==
insns[-1].address`). -/
def lastThreeSame (insns : List Instr) : Bool :=
  headThreeSame insns.reverse

/-- Stated from the spec sentence behind claim C3 (spec 4.2 step 6), read literally:
if emulation is active and the instruction is not a call, `next` is the emulator's
post-step program counter; otherwise, if the condition is known-true or the jump is
unconditional and the branch target resolves, `next` is the resolved target;
otherwise `next` is `address + size`; the result is masked to the pointer width. -/
def next_spec_rule (A : Assistant) (st : ProcState) (insn : Instr)
    (emu : Option Emu) : Nat :=
  let fallback : Nat :=
    if insn.condition = some true ∨ insn.is_unconditional_jump then
      match (A.resolveTarget st insn none false).1 with
      | some t => t
      | none => insn.address + insn.size
    else insn.address + insn.size
  (match emu with
    | some e => if CS_GRP_CALL ∉ insn.groups then e.pcNow else fallback
    | none => fallback) &&& maskOf st

/-! ## Helper lemmas -/

theorem chainGet_head (mem : Nat → Option Nat) (address limit : Nat) :
    (chainGet mem address limit).head? = some address := by
  cases limit <;> simp [chainGet]

theorem chainGet_ne_nil (mem : Nat → Option Nat) (address limit : Nat) :
    chainGet mem address limit ≠ [] := by
  cases limit <;> simp [chainGet]

/-! ## Claim C1: telescope totality, shape, and the termination flag -/

/-- C1 (counterexample): with the process paused at the instruction and a sub-word
read size whose memory read fails, `telescope` returns the one-element list
`[address]` with the flag `true` — so the flag is not "true iff at least one
dereference beyond the starting value occurred", and a no-dereference result can
carry a `true` flag. -/
theorem claim_C1_counterexample :
    telescope { pc := 0x1000 } 0x1000 3 { address := 0x1000, size := 1 }
        { otype := OpType.mem } none (some 1) = ([0x1000], true) := by
  rfl

/-- C1 (amended): the telescope operation is total (never raises: every failing
memory read is absorbed), always returns a non-empty list whose first entry is the
starting address, and whenever the returned flag is `false` the result is exactly
`[address]`; the flag reports that telescoping was attempted (emulator present,
live-readable state, or read-only page), which can hold even when no dereference
beyond the starting value succeeded. -/
theorem claim_C1_telescope_nonempty_head (st : ProcState) (address limit : Nat)
    (insn : Instr) (op : EOperand) (emu : Option Emu) (read_size : Option Nat) :
    (telescope st address limit insn op emu read_size).1 ≠ [] ∧
    (telescope st address limit insn op emu read_size).1.head? = some address ∧
    ((telescope st address limit insn op emu read_size).2 = false →
      (telescope st address limit insn op emu read_size).1 = [address]) := by
  unfold telescope
  cases emu with
  | some e =>
      cases read_size with
      | some sz => simp [Emu.telescope]
      | none => simp [Emu.telescope, chainGet_head, chainGet_ne_nil]
  | none =>
      by_cases hpc : insn.address = st.pc
      · cases read_size with
        | some sz =>
            by_cases hsz : sz ≠ st.ptrsize <;>
              simp [hpc, hsz, chainGet_head, chainGet_ne_nil]
        | none => simp [hpc, chainGet_head, chainGet_ne_nil]
      · cases hpage : st.vmmapPage address with
        | some page =>
            by_cases hw : page.write <;>
              simp [hpc, hpage, hw, chainGet_head, chainGet_ne_nil]
        | none => simp [hpc, hpage]

/-! ## Claim C9: bytes fetched per architecture before disassembly -/

/-- C9: the byte count fetched before decoding is 16 for the x86 family
(i386, x86-64, i8086), 22 for RISC-V with compressed extensions (rv32, rv64), and
4 — the default for architectures absent from `VariableInstructionSizeMax` — for
the fixed-width ISAs (arm, armcm, aarch64, powerpc, sparc).  (mips, a
variable-width entry of the table, fetches 8.) -/
theorem claim_C9_fetch_lengths :
    disasm_fetch_length "i386" = 16 ∧ disasm_fetch_length "x86-64" = 16 ∧
    disasm_fetch_length "i8086" = 16 ∧
    disasm_fetch_length "rv32" = 22 ∧ disasm_fetch_length "rv64" = 22 ∧
    disasm_fetch_length "arm" = 4 ∧ disasm_fetch_length "armcm" = 4 ∧
    disasm_fetch_length "aarch64" = 4 ∧ disasm_fetch_length "powerpc" = 4 ∧
    disasm_fetch_length "sparc" = 4 ∧ disasm_fetch_length "mips" = 8 :=
  ⟨rfl, rfl, rfl, rfl, rfl, rfl, rfl, rfl, rfl, rfl, rfl⟩

/-! ## Claim C2: the target field is never unresolved after enhancement -/

/-- Projection of `enhance_next`: the computed `next` value. -/
theorem enhance_next_next (A : Assistant) (st : ProcState) (insn : Instr)
    (emu : Option Emu) :
    (enhance_next A st insn emu).next =
      ((match emu with
        | some e => if CS_GRP_CALL ∉ insn.groups then some e.pcNow else none
        | none =>
            if insn.condition = some true ∨ insn.is_unconditional_jump then
              (A.resolveTarget st insn none false).1
            else none).getD (insn.address + insn.size)) &&& maskOf st := by
  simp only [enhance_next]
  cases ht : (A.resolveTarget st insn emu true).1 <;>
    cases hops : insn.ops <;> simp [ht, hops] <;> split <;> simp

/-- Projection of `enhance_next`: the computed `target` value. -/
theorem enhance_next_target (A : Assistant) (st : ProcState) (insn : Instr)
    (emu : Option Emu) :
    (enhance_next A st insn emu).target =
      some (((A.resolveTarget st insn emu true).1).getD
        ((enhance_next A st insn emu).next)) := by
  simp only [enhance_next]
  cases ht : (A.resolveTarget st insn emu true).1 <;>
    cases hops : insn.ops <;> simp [ht, hops] <;> split <;> simp

theorem enhance_next_target_isSome (A : Assistant) (st : ProcState) (insn : Instr)
    (emu : Option Emu) : ((enhance_next A st insn emu).target).isSome = true := by
  rw [enhance_next_target]
  rfl

/-- A demonstration process state used by the closed witness theorems. -/
def wSt : ProcState := { pc := 0 }

/-- A demonstration instruction (no groups, no operands) used by witnesses. -/
def wInsn : Instr := { address := 0x100, size := 4 }

/-- C2: after enhancement completes the `target` field is never `None`, and when
`resolve_target` resolves nothing, `target` equals the instruction's `next`. -/
theorem claim_C2_target_never_none (A : Assistant) (st : ProcState) (insn : Instr)
    (emu0 emu : Option Emu) :
    ((enhance A st insn emu0).target).isSome = true ∧
    ((A.resolveTarget st insn emu true).1 = none →
      (enhance_next A st insn emu).target =
        some ((enhance_next A st insn emu).next)) := by
  constructor
  · unfold enhance
    by_cases hd : st.disasmAnnotations <;> simp [hd, enhance_next_target_isSome]
  · intro h
    rw [enhance_next_target, h]
    rfl

theorem claim_C2_witness :
    (enhance_next x86Assistant wSt wInsn none).target =
      some ((enhance_next x86Assistant wSt wInsn none).next) :=
  (claim_C2_target_never_none x86Assistant wSt wInsn none none).2 (by rfl)

/-! ## Claim C3: how the next field is computed -/

theorem enhance_next_next_eq (A : Assistant) (st : ProcState) (insn : Instr)
    (emu : Option Emu)
    (hA : CS_GRP_CALL ∈ insn.groups → (A.resolveTarget st insn none false).1 = none) :
    (enhance_next A st insn emu).next = next_spec_rule A st insn emu := by
  rw [enhance_next_next]
  simp only [next_spec_rule]
  cases emu with
  | some e =>
      by_cases hc : CS_GRP_CALL ∈ insn.groups
      · by_cases hcond : insn.condition = some true ∨ insn.is_unconditional_jump <;>
          simp [hc, hA hc, hcond]
      · simp [hc]
  | none =>
      by_cases hcond : insn.condition = some true ∨ insn.is_unconditional_jump <;>
        cases ht : (A.resolveTarget st insn none false).1 <;> simp [hcond, ht]

/-- C3: for both the generic and the x86 assistant, `next` follows the spec's rule:
emulator post-step program counter for emulated non-calls; else the resolved branch
target when the condition is known-true or the jump is unconditional and the target
resolves; else `address + size`; masked to the pointer width.  (The hypothesis
records the capstone invariant that a call-group instruction is never the `ret`
mnemonic, which grounds the x86 `ret` special case.) -/
theorem claim_C3_next_rule (st : ProcState) (insn : Instr) (emu : Option Emu)
    (h : CS_GRP_CALL ∈ insn.groups → insn.id ≠ X86_INS_RET) :
    (enhance_next genericAssistant st insn emu).next =
      next_spec_rule genericAssistant st insn emu ∧
    (enhance_next x86Assistant st insn emu).next =
      next_spec_rule x86Assistant st insn emu := by
  constructor
  · refine enhance_next_next_eq _ st insn emu (fun hc => ?_)
    simp [genericAssistant, resolve_target_g, hc]
  · refine enhance_next_next_eq _ st insn emu (fun hc => ?_)
    simp only [x86Assistant, resolve_target_x86]
    rw [if_pos (Or.inl (h hc))]
    simp [resolve_target_g, hc]

theorem claim_C3_witness :
    (enhance_next genericAssistant wSt wInsn none).next =
      next_spec_rule genericAssistant wSt wInsn none ∧
    (enhance_next x86Assistant wSt wInsn none).next =
      next_spec_rule x86Assistant wSt wInsn none :=
  claim_C3_next_rule wSt wInsn none (by intro hm; cases hm)

/-! ## Claim C5: a ret instruction away from the pc performs no stack read -/

/-- C5: for an x86 `ret` whose address differs from the process program counter,
target resolution never runs the return-address stack read (the flag instrumenting
the `peek`/`poi` of `sp + ptrsize*pop` stays false) and resolves nothing, so without
an emulator `next` falls back to `address + size` and `target` falls back to
`next`.  (`ret` carries the capstone `ret` group, so the jump and call groups are
absent, which the hypotheses record.) -/
theorem claim_C5_ret_elsewhere (st : ProcState) (insn : Instr)
    (hid : insn.id = X86_INS_RET) (hpc : insn.address ≠ st.pc)
    (hcall : CS_GRP_CALL ∉ insn.groups) (hjump : CS_GRP_JUMP ∉ insn.groups) :
    (∀ (c : Bool) (emu : Option Emu), resolve_target_x86 st insn emu c = (none, false)) ∧
    (enhance_next x86Assistant st insn none).next =
      (insn.address + insn.size) &&& maskOf st ∧
    (enhance_next x86Assistant st insn none).target =
      some ((insn.address + insn.size) &&& maskOf st) := by
  have hg : ∀ (c : Bool) (emu : Option Emu),
      resolve_target_g resolve_used_value_x86 st insn emu c = none := by
    intro c emu
    simp [resolve_target_g, hcall, hjump]
  have hrt : ∀ (c : Bool) (emu : Option Emu),
      resolve_target_x86 st insn emu c = (none, false) := by
    intro c emu
    simp only [resolve_target_x86]
    by_cases hlen : insn.ops.length > 1
    · rw [if_pos (Or.inr hlen), hg]
    · have hcondF : ¬(insn.id ≠ X86_INS_RET ∨ insn.ops.length > 1) := by
        push_neg
        exact ⟨by simp [hid], by omega⟩
      rw [if_neg hcondF, if_pos hpc, hg]
  have hnext : (enhance_next x86Assistant st insn none).next =
      (insn.address + insn.size) &&& maskOf st := by
    rw [enhance_next_next]
    by_cases hcond : insn.condition = some true ∨ insn.is_unconditional_jump <;>
      simp [hcond, x86Assistant, hrt]
  refine ⟨hrt, hnext, ?_⟩
  rw [enhance_next_target]
  have : (x86Assistant.resolveTarget st insn none true).1 = none := by
    simp [x86Assistant, hrt]
  rw [this, Option.getD_none, hnext]

/-- A demonstration `ret` instruction away from the program counter. -/
def wInsnRet : Instr :=
  { address := 0x2000, size := 1, id := X86_INS_RET, groups := [CS_GRP_RET] }

theorem claim_C5_witness :
    (enhance_next x86Assistant wSt wInsnRet none).next =
      (wInsnRet.address + wInsnRet.size) &&& maskOf wSt ∧
    (enhance_next x86Assistant wSt wInsnRet none).target =
      some ((wInsnRet.address + wInsnRet.size) &&& maskOf wSt) :=
  (claim_C5_ret_elsewhere wSt wInsnRet rfl (by decide) (by decide) (by decide)).2

/-! ## Claim C4: what resolves without an emulator away from the pc -/

/-- Generic register reads without an emulator resolve nothing away from the pc. -/
theorem read_register_g_away (st : ProcState) (insn : Instr) (rid : Nat)
    (hpc : insn.address ≠ st.pc) : read_register_g st insn rid none = none := by
  simp [read_register_g, hpc]

/-- x86 register reads of a non-RIP register without an emulator resolve nothing
away from the pc. -/
theorem read_register_x86_away (st : ProcState) (insn : Instr) (rid : Nat)
    (hpc : insn.address ≠ st.pc) (hrip : rid ≠ X86_REG_RIP) :
    read_register_x86 st insn rid none = none := by
  simp [read_register_x86, hrip, read_register_g_away st insn rid hpc]

/-- A demonstration state and instruction for the C4 counterexample: an immediate
operand of an instruction whose address is not the program counter. -/
def stC4 : ProcState := { pc := 0x1000 }

/-- The C4 counterexample instruction: one immediate operand, address 0x2000. -/
def insnC4 : Instr :=
  { address := 0x2000, size := 2, ops := [{ otype := OpType.imm, imm := 64 }] }

/-- C4 (counterexample): an immediate operand of an instruction enhanced without an
emulator at an address different from the current program counter still acquires a
`before_value` (the literal immediate), so `before_value` is not set "only when the
instruction's address equals the debuggee's current program counter". -/
theorem claim_C4_counterexample :
    insnC4.address ≠ stC4.pc ∧
    ((enhance_operands x86Assistant stC4 insnC4 none).1.ops.map
      (fun o => o.before_value)) = [some 64] := by
  exact ⟨by decide, rfl⟩

/-- C4 (amended): without an emulator and away from the program counter, operand
values derivable from the instruction itself still resolve — immediate operands
always acquire `before_value` (the masked immediate), and the x86 RIP register
always resolves — but register operands other than RIP remain unresolved:
`before_value` and `symbol` stay `None`. -/
theorem claim_C4_amended (st : ProcState) (insn : Instr)
    (hpc : insn.address ≠ st.pc)
    (hfresh : ∀ o ∈ insn.ops, o.symbol = none) :
    ∀ o ∈ (enhance_operands x86Assistant st insn none).1.ops,
      (o.otype = OpType.reg → o.reg ≠ X86_REG_RIP →
        o.before_value = none ∧ o.symbol = none) ∧
      (o.otype = OpType.imm →
        o.before_value = some (maskIntTo (8 * st.ptrsize) o.imm)) := by
  intro o ho
  simp only [enhance_operands, List.map_map, List.mem_map, Function.comp] at ho
  obtain ⟨raw, hraw, rfl⟩ := ho
  cases hh : op_handler x86Assistant st insn raw none with
  | some v =>
      simp only [enhance_op_before, hh, Option.map, Option.bind, enhance_op_str]
      constructor
      · intro hreg hrip
        rw [op_handler, hreg] at hh
        simp only [x86Assistant] at hh
        rw [read_register_x86_away st insn raw.reg hpc hrip] at hh
        cases hh
      · intro himm
        rw [op_handler, himm] at hh
        simp only [Option.some.injEq] at hh
        subst hh
        simp
  | none =>
      simp only [enhance_op_before, hh, Option.map, Option.bind, enhance_op_str]
      constructor
      · intro _ _
        simp [hfresh raw hraw]
      · intro himm
        rw [op_handler, himm] at hh
        cases hh

/-- The single (immediate) operand of `insnC4` after enhancement. -/
def opC4e : EOperand :=
  ((enhance_operands x86Assistant stC4 insnC4 none).1.ops).getD 0
    { otype := OpType.other }

theorem claim_C4_witness :
    opC4e.before_value = some (maskIntTo (8 * stC4.ptrsize) opC4e.imm) :=
  (claim_C4_amended stC4 insnC4 (by decide) (by decide) opC4e (by decide)).2 (by decide)

/-! ## Claim C10: segmented x86 memory operands never resolve -/

/-- The x86 operand-kind handler resolves nothing for a memory operand that uses a
segment register, in any context. -/
theorem op_handler_x86_segmented (st : ProcState) (insn : Instr) (op : EOperand)
    (emu : Option Emu) (hop : op.otype = OpType.mem) (hseg : op.memSegment ≠ 0) :
    op_handler x86Assistant st insn op emu = none := by
  rw [op_handler, hop]
  simp [x86Assistant, parse_memory_x86, hseg]

@[simp]
theorem enhance_op_str_otype (st : ProcState) (i : Instr) (op : EOperand) :
    (enhance_op_str st i op).otype = op.otype := rfl

@[simp]
theorem enhance_op_str_memSegment (st : ProcState) (i : Instr) (op : EOperand) :
    (enhance_op_str st i op).memSegment = op.memSegment := rfl

@[simp]
theorem enhance_op_str_before (st : ProcState) (i : Instr) (op : EOperand) :
    (enhance_op_str st i op).before_value = op.before_value := rfl

@[simp]
theorem enhance_op_str_after (st : ProcState) (i : Instr) (op : EOperand) :
    (enhance_op_str st i op).after_value = op.after_value := rfl

@[simp]
theorem enhance_op_after_otype (A : Assistant) (st : ProcState) (i : Instr)
    (e : Option Emu) (op : EOperand) :
    (enhance_op_after A st i e op).otype = op.otype := rfl

@[simp]
theorem enhance_op_after_memSegment (A : Assistant) (st : ProcState) (i : Instr)
    (e : Option Emu) (op : EOperand) :
    (enhance_op_after A st i e op).memSegment = op.memSegment := rfl

@[simp]
theorem enhance_op_after_before (A : Assistant) (st : ProcState) (i : Instr)
    (e : Option Emu) (op : EOperand) :
    (enhance_op_after A st i e op).before_value = op.before_value := rfl

@[simp]
theorem enhance_op_before_otype (A : Assistant) (st : ProcState) (i : Instr)
    (e : Option Emu) (op : EOperand) :
    (enhance_op_before A st i e op).otype = op.otype := by
  unfold enhance_op_before
  split <;> rfl

@[simp]
theorem enhance_op_before_memSegment (A : Assistant) (st : ProcState) (i : Instr)
    (e : Option Emu) (op : EOperand) :
    (enhance_op_before A st i e op).memSegment = op.memSegment := by
  unfold enhance_op_before
  split <;> rfl

@[simp]
theorem enhance_op_before_afterv (A : Assistant) (st : ProcState) (i : Instr)
    (e : Option Emu) (op : EOperand) :
    (enhance_op_before A st i e op).after_value = op.after_value := by
  unfold enhance_op_before
  split <;> rfl

/-- Phase 1 leaves a segmented x86 memory operand unresolved. -/
theorem enhance_op_before_seg (st : ProcState) (i : Instr) (e : Option Emu)
    (op : EOperand) (h1 : op.otype = OpType.mem) (h2 : op.memSegment ≠ 0) :
    (enhance_op_before x86Assistant st i e op).before_value = none := by
  unfold enhance_op_before
  rw [op_handler_x86_segmented st i op e h1 h2]
  rfl

/-- Phase 2 leaves a segmented x86 memory operand without an after value. -/
theorem enhance_op_after_seg (st : ProcState) (i : Instr) (e : Option Emu)
    (op : EOperand) (h1 : op.otype = OpType.mem) (h2 : op.memSegment ≠ 0) :
    (enhance_op_after x86Assistant st i e op).after_value = none := by
  unfold enhance_op_after
  rw [op_handler_x86_segmented st i op e h1 h2]
  rfl

/-- C10: `parse_memory` returns `None` for any x86 memory operand with a nonzero
segment field, regardless of emulation or process state, so after operand
enhancement such operands carry neither a `before_value` nor an `after_value`
(the instruction's raw operands start with `after_value` unset, as decoded). -/
theorem claim_C10_segmented (st : ProcState) (insn : Instr) (emu : Option Emu)
    (op : EOperand) (hop : op.otype = OpType.mem) (hseg : op.memSegment ≠ 0)
    (hfresh : ∀ o ∈ insn.ops, o.after_value = none) :
    parse_memory_x86 st insn op emu = none ∧
    ∀ o ∈ (enhance_operands x86Assistant st insn emu).1.ops,
      o.otype = OpType.mem → o.memSegment ≠ 0 →
      o.before_value = none ∧ o.after_value = none := by
  constructor
  · simp [parse_memory_x86, hseg]
  · intro o ho ho1 ho2
    cases emu with
    | none =>
        simp only [enhance_operands, List.map_map, List.mem_map, Function.comp] at ho
        obtain ⟨raw, hraw, rfl⟩ := ho
        simp only [enhance_op_str_otype, enhance_op_str_memSegment,
          enhance_op_before_otype, enhance_op_before_memSegment] at ho1 ho2
        rw [enhance_op_str_before, enhance_op_str_after, enhance_op_before_afterv]
        exact ⟨enhance_op_before_seg st insn none raw ho1 ho2, hfresh raw hraw⟩
    | some e =>
        by_cases hok : (e.single_step).2 = true
        · simp only [enhance_operands, hok, if_true, List.map_map, List.mem_map,
            Function.comp] at ho
          obtain ⟨raw, hraw, rfl⟩ := ho
          simp only [enhance_op_str_otype, enhance_op_str_memSegment,
            enhance_op_after_otype, enhance_op_after_memSegment,
            enhance_op_before_otype, enhance_op_before_memSegment] at ho1 ho2
          rw [enhance_op_str_before, enhance_op_str_after, enhance_op_after_before]
          constructor
          · exact enhance_op_before_seg st insn (some e) raw ho1 ho2
          · exact enhance_op_after_seg st _ _ _
              (by simp [ho1]) (by simp [ho2])
        · simp only [enhance_operands, hok, if_false, Bool.false_eq_true,
            List.map_map, List.mem_map, Function.comp] at ho
          obtain ⟨raw, hraw, rfl⟩ := ho
          simp only [enhance_op_str_otype, enhance_op_str_memSegment,
            enhance_op_before_otype, enhance_op_before_memSegment] at ho1 ho2
          rw [enhance_op_str_before, enhance_op_str_after, enhance_op_before_afterv]
          exact ⟨enhance_op_before_seg st insn (some e) raw ho1 ho2, hfresh raw hraw⟩

/-- A raw segmented memory operand for the C10 witness. -/
def opC10raw : EOperand := { otype := OpType.mem, memSegment := 5, memDisp := 7 }

/-- The C10 demonstration instruction: a single memory operand addressed through a
segment register. -/
def insnC10 : Instr := { address := 0x100, size := 3, ops := [opC10raw] }

/-- The single (segmented memory) operand of `insnC10` after enhancement. -/
def opC10e : EOperand :=
  ((enhance_operands x86Assistant wSt insnC10 none).1.ops).getD 0
    { otype := OpType.other }

theorem claim_C10_witness :
    parse_memory_x86 wSt insnC10 opC10raw none = none ∧
    opC10e.before_value = none ∧ opC10e.after_value = none :=
  ⟨(claim_C10_segmented wSt insnC10 none opC10raw
      (by decide) (by decide) (by decide)).1,
   (claim_C10_segmented wSt insnC10 none opC10raw
      (by decide) (by decide) (by decide)).2 opC10e (by decide) (by decide) (by decide)⟩

/-! ## Claim C8: xor annotation -/

/-- C8: for an x86 `xor` whose two operands are the same register, the annotation
is the unconditional "destination => 0" — for every process state and with or
without an emulator; for any other operand shape an annotation is produced exactly
when the destination's post-execution value resolves. -/
theorem claim_C8_xor (st : ProcState) (insn : Instr) (emu : Option Emu)
    (left right : EOperand) (hops : insn.ops = [left, right]) :
    ((left.otype = OpType.reg ∧ right.otype = OpType.reg ∧ left.reg = right.reg) →
      handle_xor st insn emu = some (strOf left.str ++ " => 0")) ∧
    (¬(left.otype = OpType.reg ∧ right.otype = OpType.reg ∧ left.reg = right.reg) →
      ((handle_xor st insn emu).isSome = true ↔
        (resolve_used_value_x86 st left.after_value insn left emu).isSome = true)) := by
  constructor
  · intro hsame
    simp only [handle_xor, hops]
    rw [if_pos hsame]
  · intro hdiff
    simp only [handle_xor, hops]
    rw [if_neg hdiff]
    cases h : resolve_used_value_x86 st left.after_value insn left emu <;> simp [h]

/-- A register operand used by the C8 witness. -/
def opReg7 : EOperand := { otype := OpType.reg, reg := 7 }

/-- The C8 witness instruction: `xor r, r` on the same register. -/
def insnXor : Instr :=
  { address := 0x400, size := 2, id := X86_INS_XOR, ops := [opReg7, opReg7] }

theorem claim_C8_witness :
    handle_xor wSt insnXor none = some (strOf opReg7.str ++ " => 0") :=
  (claim_C8_xor wSt insnXor none opReg7 opReg7 rfl).1 (by decide)

/-! ## Claim C6: trailing-repeat truncation of the assembled window -/

/-- The deletion loop only removes elements from the end: on the reversed list it
returns a suffix. -/
theorem drop_rep_suffix (r : List Instr) :
    ∃ t, r = t ++ drop_repeated_head r := by
  induction r with
  | nil => exact ⟨[], rfl⟩
  | cons a l ih =>
      match l, ih with
      | [], _ => exact ⟨[], rfl⟩
      | [b], _ => exact ⟨[], rfl⟩
      | b :: c :: rest, ih =>
          by_cases h : a.address = b.address ∧ b.address = c.address
          · simp only [drop_repeated_head]
            rw [if_pos h]
            obtain ⟨t, ht⟩ := ih
            exact ⟨a :: t, by rw [List.cons_append, ← ht]⟩
          · simp only [drop_repeated_head]
            rw [if_neg h]
            exact ⟨[], rfl⟩

/-- If the reversed window starts with two equal addresses, the deletion loop keeps
(at least) two entries of that address at the start. -/
theorem drop_rep_two (rest : List Instr) :
    ∀ a b : Instr, a.address = b.address →
      ∃ x y r2, drop_repeated_head (a :: b :: rest) = x :: y :: r2 ∧
        x.address = a.address ∧ y.address = a.address := by
  induction rest with
  | nil =>
      intro a b hab
      exact ⟨a, b, [], rfl, rfl, hab.symm⟩
  | cons c rest2 ih =>
      intro a b hab
      by_cases hcond : a.address = b.address ∧ b.address = c.address
      · simp only [drop_repeated_head]
        rw [if_pos hcond]
        obtain ⟨x, y, r2, hxy, hx, hy⟩ := ih b c hcond.2
        exact ⟨x, y, r2, hxy, hx.trans hab.symm, hy.trans hab.symm⟩
      · simp only [drop_repeated_head]
        rw [if_neg hcond]
        exact ⟨a, b, c :: rest2, rfl, rfl, hab.symm⟩

/-- After the deletion loop, the first three entries of the reversed window no
longer share one address (the loop's exit condition). -/
theorem drop_rep_no_three (r : List Instr) :
    headThreeSame (drop_repeated_head r) = false := by
  induction r with
  | nil => rfl
  | cons a l ih =>
      match l, ih with
      | [], _ => rfl
      | [b], _ => rfl
      | b :: c :: rest, ih =>
          by_cases h : a.address = b.address ∧ b.address = c.address
          · simp only [drop_repeated_head]
            rw [if_pos h]
            exact ih
          · simp only [drop_repeated_head]
            rw [if_neg h]
            simp [headThreeSame, h]

/-- When the guard fails the deletion loop does nothing. -/
theorem drop_rep_id (r : List Instr) (h : headThreeSame r = false) :
    drop_repeated_head r = r := by
  match r with
  | [] => rfl
  | [a] => rfl
  | [a, b] => rfl
  | a :: b :: c :: rest =>
      simp only [headThreeSame] at h
      simp only [drop_repeated_head]
      rw [if_neg (by simpa using h)]

/-- C6: if the last three instructions of the assembled window share one address,
the post-processing removes trailing duplicates until exactly two entries of that
address remain at the end (the third-from-last entry, if any, has a different
address), deleting only from the end; a window whose last three addresses are not
all identical is returned unchanged. -/
theorem claim_C6_trailing (l : List Instr) :
    (lastThreeSame l = false → collapse_trailing_repeats l = l) ∧
    (∀ a as, l.reverse = a :: as → lastThreeSame l = true →
      (∃ t, l = collapse_trailing_repeats l ++ t) ∧
      (∃ x y r2, (collapse_trailing_repeats l).reverse = x :: y :: r2 ∧
        x.address = a.address ∧ y.address = a.address ∧
        ∀ z, r2.head? = some z → z.address ≠ a.address)) := by
  constructor
  · intro h
    unfold collapse_trailing_repeats
    rw [drop_rep_id l.reverse h]
    exact List.reverse_reverse l
  · intro a as hrev htrue
    unfold lastThreeSame at htrue
    rw [hrev] at htrue
    match as, htrue with
    | b :: c :: rest, htrue =>
        have hcond : a.address = b.address ∧ b.address = c.address := by
          simpa [headThreeSame] using htrue
        constructor
        · obtain ⟨t, ht⟩ := drop_rep_suffix l.reverse
          refine ⟨t.reverse, ?_⟩
          have h2 := congrArg List.reverse ht
          rw [List.reverse_reverse, List.reverse_append] at h2
          exact h2
        · obtain ⟨x, y, r2, hxy, hx, hy⟩ := drop_rep_two (c :: rest) a b hcond.1
          rw [← hrev] at hxy
          refine ⟨x, y, r2, ?_, hx, hy, ?_⟩
          · unfold collapse_trailing_repeats
            rw [List.reverse_reverse]
            exact hxy
          · intro z hz hza
            have h3 := drop_rep_no_three l.reverse
            rw [hxy] at h3
            cases r2 with
            | nil => cases hz
            | cons z0 r3 =>
                have hz0 : z0 = z := by
                  simpa using hz
                have hza0 : z0.address = a.address := by
                  rw [hz0]
                  exact hza
                simp only [headThreeSame] at h3
                exact (by simpa using h3 : x.address = y.address →
                  ¬y.address = z0.address) (hx.trans hy.symm) (hy.trans hza0.symm)

/-- Window entries for the C6 witness: address 5 repeated three times at the end. -/
def wA : Instr := { address := 5, size := 1 }

/-- The other window entry for the C6 witness. -/
def wB : Instr := { address := 1, size := 1 }

/-- A window that revisits address 5 three times consecutively at its end. -/
def wLoop : List Instr := [wB, wA, wA, wA]

theorem claim_C6_witness :
    (∃ t, wLoop = collapse_trailing_repeats wLoop ++ t) ∧
    (∃ x y r2, (collapse_trailing_repeats wLoop).reverse = x :: y :: r2 ∧
      x.address = wA.address ∧ y.address = wA.address ∧
      ∀ z, r2.head? = some z → z.address ≠ wA.address) :=
  (claim_C6_trailing wLoop).2 wA [wA, wA, wB] (by decide) (by decide)

/-! ## Claim C7: after a DO_NOT_EMULATE instruction, emulation stays off -/

/-- The walk invariant: a live emulator implies emulation is still enabled
(`emu` is only created under `emulate` and only ever reset together with it). -/
theorem near_initial_inv (env : WalkEnv) (st : ProcState) (address : Nat)
    (em sup canEmu : Bool) (e0 : Emu) (prev : List Instr) :
    (near_initial env st address em sup canEmu e0 prev).emu.isSome = true →
    (near_initial env st address em sup canEmu e0 prev).emulate = true := by
  intro h
  simp only [near_initial] at h ⊢
  by_cases hcond : address = st.pc ∧ (em = true ∧ sup = true) ∧ canEmu = true
  · simp [hcond.2.1.1, hcond.2.1.2]
  · rw [if_neg (by simpa using hcond)] at h
    simp at h

/-- `forward_step` preserves the walk invariant. -/
theorem forward_step_inv (env : WalkEnv) (s : NearState)
    (hinv : s.emu.isSome = true → s.emulate = true) :
    (forward_step env s).emu.isSome = true → (forward_step env s).emulate = true := by
  intro h
  cases hc : s.cur with
  | none =>
      simp only [forward_step, hc] at h ⊢
      exact hinv h
  | some insn =>
      by_cases hguard : s.emulate = true ∧ hits_do_not_emulate insn = true
      · simp [forward_step, hc, hguard.1, hguard.2] at h
      · cases hm : s.emu with
        | none =>
            simp only [forward_step, hc, hm] at h
            rw [show (if s.emulate = true ∧ hits_do_not_emulate insn = true then
                  ((false : Bool), (none : Option Emu))
                else (s.emulate, none)).2 = none from by split <;> rfl] at h
            simp at h
        | some e =>
            have hemulate : s.emulate = true := hinv (by rw [hm]; rfl)
            simp [forward_step, hc, hm, hemulate] at h ⊢
            have hdne : hits_do_not_emulate insn = false := by
              cases hdd : hits_do_not_emulate insn with
              | false => rfl
              | true => exact absurd ⟨hemulate, hdd⟩ hguard
            simp [hdne] at h ⊢

/-- `forward_walk` preserves the walk invariant. -/
theorem forward_walk_inv (env : WalkEnv) (total : Nat) :
    ∀ (fuel : Nat) (s : NearState),
      (s.emu.isSome = true → s.emulate = true) →
      ((forward_walk env total fuel s).emu.isSome = true →
        (forward_walk env total fuel s).emulate = true) := by
  intro fuel
  induction fuel with
  | zero => intro s hinv; rw [forward_walk]; exact hinv
  | succ n ih =>
      intro s hinv
      rw [forward_walk]
      by_cases hg : s.cur.isSome ∧ s.insns.length < total
      · rw [if_pos hg]
        exact ih (forward_step env s) (forward_step_inv env s hinv)
      · rw [if_neg hg]
        exact hinv

/-- Once emulation is off and the emulator is gone, one step keeps them off and
records a no-emulator fetch (or does nothing when the walk has ended). -/
theorem forward_step_absorb (env : WalkEnv) (s : NearState)
    (h1 : s.emulate = false) (h2 : s.emu = none) :
    (forward_step env s).emulate = false ∧ (forward_step env s).emu = none ∧
    ((forward_step env s).trace = s.trace ∨
      (forward_step env s).trace = s.trace ++ [false]) := by
  cases hc : s.cur with
  | none =>
      refine ⟨?_, ?_, Or.inl ?_⟩ <;> simp [forward_step, hc, h1, h2]
  | some insn => simp [forward_step, hc, h1, h2]

/-- One step only appends to the instrumentation trace. -/
theorem forward_step_trace (env : WalkEnv) (s : NearState) :
    ∃ u, (forward_step env s).trace = s.trace ++ u := by
  cases hc : s.cur with
  | none => exact ⟨[], by simp [forward_step, hc]⟩
  | some insn =>
      simp only [forward_step, hc]
      exact ⟨_, rfl⟩

/-- The walk only appends to the instrumentation trace. -/
theorem walk_trace_extends (env : WalkEnv) (total : Nat) :
    ∀ (fuel : Nat) (s : NearState),
      ∃ t, (forward_walk env total fuel s).trace = s.trace ++ t := by
  intro fuel
  induction fuel with
  | zero =>
      intro s
      exact ⟨[], by rw [forward_walk, List.append_nil]⟩
  | succ n ih =>
      intro s
      rw [forward_walk]
      by_cases hg : s.cur.isSome ∧ s.insns.length < total
      · rw [if_pos hg]
        obtain ⟨t, ht⟩ := ih (forward_step env s)
        obtain ⟨u, hu⟩ := forward_step_trace env s
        exact ⟨u ++ t, by rw [ht, hu, List.append_assoc]⟩
      · rw [if_neg hg]
        exact ⟨[], by rw [List.append_nil]⟩

/-- Once emulation is off and the emulator is gone, every later fetch of the walk
happens without an emulator. -/
theorem absorb_walk (env : WalkEnv) (total : Nat) :
    ∀ (fuel : Nat) (s : NearState), s.emulate = false → s.emu = none →
      ∀ b ∈ (forward_walk env total fuel s).trace.drop s.trace.length, b = false := by
  intro fuel
  induction fuel with
  | zero =>
      intro s h1 h2 b hb
      rw [forward_walk, List.drop_length] at hb
      cases hb
  | succ n ih =>
      intro s h1 h2 b hb
      rw [forward_walk] at hb
      by_cases hg : s.cur.isSome ∧ s.insns.length < total
      · rw [if_pos hg] at hb
        obtain ⟨he, hm, htr⟩ := forward_step_absorb env s h1 h2
        obtain ⟨t, ht⟩ := walk_trace_extends env total n (forward_step env s)
        rcases htr with htr | htr
        · rw [ht, htr, List.drop_left] at hb
          have hmem : b ∈ (forward_walk env total n (forward_step env s)).trace.drop
              (forward_step env s).trace.length := by
            rw [ht, List.drop_left]
            exact hb
          exact ih (forward_step env s) he hm b hmem
        · rw [ht, htr, List.append_assoc, List.drop_left] at hb
          rcases List.mem_append.mp hb with hbl | hbl
          · simpa using hbl
          · have hmem : b ∈ (forward_walk env total n (forward_step env s)).trace.drop
                (forward_step env s).trace.length := by
              rw [ht, List.drop_left]
              exact hbl
            exact ih (forward_step env s) he hm b hmem
      · rw [if_neg hg, List.drop_length] at hb
        cases hb

/-- Processing a DO_NOT_EMULATE instruction turns emulation off, discards the
emulator, and fetches the next instruction without one. -/
theorem forward_step_hit (env : WalkEnv) (s : NearState) (insn : Instr)
    (hinv : s.emu.isSome = true → s.emulate = true)
    (hc : s.cur = some insn) (hd : hits_do_not_emulate insn = true) :
    (forward_step env s).emulate = false ∧ (forward_step env s).emu = none ∧
    (forward_step env s).trace = s.trace ++ [false] := by
  cases he : s.emulate with
  | false =>
      have hemu : s.emu = none := by
        cases hm : s.emu with
        | none => rfl
        | some e =>
            have hcontra := hinv (by rw [hm]; rfl)
            rw [he] at hcontra
            cases hcontra
      simp [forward_step, hc, he, hemu]
  | true => simp [forward_step, hc, he, hd]

/-- C7: during `near`'s forward walk, once the current instruction's groups
intersect DO_NOT_EMULATE, every subsequent instruction fetch of that walk happens
without an emulator (the emulator reference is discarded and never re-acquired):
from any iterate of the walk started by `near` whose current instruction hits
DO_NOT_EMULATE, all later trace entries are false. -/
theorem claim_C7_no_emulation_after_dne (env : WalkEnv) (st : ProcState)
    (address : Nat) (em sup canEmu : Bool) (e0 : Emu) (prev : List Instr)
    (total k fuel : Nat) (insn : Instr)
    (hcur : (forward_walk env total k
        (near_initial env st address em sup canEmu e0 prev)).cur = some insn)
    (hdne : hits_do_not_emulate insn = true) :
    ∀ b ∈ (forward_walk env total fuel
        (forward_walk env total k
          (near_initial env st address em sup canEmu e0 prev))).trace.drop
        (forward_walk env total k
          (near_initial env st address em sup canEmu e0 prev)).trace.length,
      b = false := by
  have hinv := forward_walk_inv env total k
    (near_initial env st address em sup canEmu e0 prev)
    (near_initial_inv env st address em sup canEmu e0 prev)
  generalize hsk : forward_walk env total k
    (near_initial env st address em sup canEmu e0 prev) = sk at hcur hinv ⊢
  intro b hb
  cases fuel with
  | zero =>
      rw [forward_walk, List.drop_length] at hb
      cases hb
  | succ n =>
      rw [forward_walk] at hb
      by_cases hg : sk.cur.isSome ∧ sk.insns.length < total
      · rw [if_pos hg] at hb
        obtain ⟨he, hm, htr⟩ := forward_step_hit env sk insn hinv hcur hdne
        obtain ⟨t, ht⟩ := walk_trace_extends env total n (forward_step env sk)
        rw [ht, htr, List.append_assoc, List.drop_left] at hb
        rcases List.mem_append.mp hb with hbl | hbl
        · simpa using hbl
        · have hmem : b ∈ (forward_walk env total n (forward_step env sk)).trace.drop
              (forward_step env sk).trace.length := by
            rw [ht, List.drop_left]
            exact hbl
          exact absorb_walk env total n (forward_step env sk) he hm b hmem
      · rw [if_neg hg, List.drop_length] at hb
        cases hb

/-- An emulator timeline (every snapshot healthy, pc 0) for the C7 witness. -/
def wEmu : Emu := { snaps := fun _ => { pc := 0 } }

/-- An instruction in the call group (a DO_NOT_EMULATE member) for the C7 witness. -/
def wCallInsn : Instr := { address := 0, size := 1, groups := [CS_GRP_CALL], next := 4 }

/-- A fetch environment that always decodes `wCallInsn`. -/
def wEnv : WalkEnv := { fetch := fun _ _ => some wCallInsn }

theorem claim_C7_witness :
    ((forward_walk wEnv 3 2
        (forward_walk wEnv 3 0 (near_initial wEnv wSt 0 true true true wEmu []))).trace.drop
        (forward_walk wEnv 3 0 (near_initial wEnv wSt 0 true true true wEmu [])).trace.length).getD
      0 true = false :=
  claim_C7_no_emulation_after_dne wEnv wSt 0 true true true wEmu [] 3 0 2 wCallInsn
    (by decide) (by decide) _ (by decide)

end Pwndbg



